import Mathlib

/-!
Verification development for the signal-generation and interactive
segment-selection/playback core of the Signal-Visualizer application.

The Python source is shallowly embedded: sample buffers and time
coordinates become lists of rationals (exact arithmetic in place of
IEEE floats), the trigonometric synthesizers are embedded over the
reals, stateful UI callbacks become explicit state-passing functions,
and the background playback worker becomes a function from its inbound
message list to the trace of playback attempts it performs.
-/

namespace SignalViz

/-- Embedding of numpy linspace with the default endpoint=True:
numpy returns the empty array for num=0, the singleton [start] for
num=1, and otherwise start + (stop-start)*i/(num-1) for i < num. -/
def npLinspace (a b : ℚ) (n : ℕ) : List ℚ :=
  if n ≤ 1 then (List.range n).map (fun _ => a)
  else (List.range n).map (fun (i : ℕ) => a + (b - a) * i / (n - 1))

/-- Embedding of numpy linspace with endpoint=False, as used for every
time axis in the generators: values start + (stop-start)*i/num. -/
def npLinspaceEF (a b : ℚ) (n : ℕ) : List ℚ :=
  (List.range n).map (fun (i : ℕ) => a + (b - a) * i / n)

/-- Sample count used by every generator:
samples = int(duration * fs), i.e. the floor for nonnegative input
(generatePureTone.py line 335, generateFreeAdd.py line 502,
generateNoise.py line 270, generateSquareWave.py line 297). -/
def numSamples (duration : ℚ) (fs : ℕ) : ℕ :=
  (⌊duration * fs⌋).toNat

/-- Time axis of every generator:
time = np.linspace(0, duration, samples, endpoint=False). -/
def timeAxis (duration : ℚ) (n : ℕ) : List ℚ :=
  npLinspaceEF 0 duration n

/-- Embedding of np.searchsorted(a, v) with the default side=left on a
sorted axis: the binary search returns the first index i with a[i] ≥ v,
and a.length when no element qualifies
(generateNoise.py line 308, generateFreeAdd.py line 567). -/
def searchsorted (a : List ℚ) (v : ℚ) : ℕ :=
  a.findIdx (fun t => decide (v ≤ t))

/-- Embedding of np.argmax(a >= v): numpy returns the first index of the
maximal element of the boolean array, which is the first index i with
a[i] ≥ v when one exists and index 0 when the comparison is everywhere
False (generatePureTone.py lines 183-184). -/
def argmaxGe (a : List ℚ) (v : ℚ) : ℕ :=
  let i := a.findIdx (fun t => decide (v ≤ t))
  if i = a.length then 0 else i

/-- Python slice a[i:j]: elements at indices i ≤ k < j. -/
def pySlice (a : List ℚ) (i j : ℕ) : List ℚ :=
  (a.take j).drop i

/-- Fade length used by the freeAdd selection handler
(generateFreeAdd.py line 574):
fade_samples = min(int(0.02 * fs), len(selected_audio) // 4),
with 0.02 embedded as the exact rational 1/50. -/
def fadeLen (fs len : ℕ) : ℕ :=
  min (fs / 50) (len / 4)

/-- Quadratic fade-in factor for index i of the selection:
fade_in = np.linspace(0, 1, n) ** 2 is multiplied onto the first n
samples (generateFreeAdd.py lines 576, 578); indices past the ramp keep
factor 1. -/
def fadeInFactor (n i : ℕ) : ℚ :=
  if i < n then ((npLinspace 0 1 n).getD i 1) ^ 2 else 1

/-- Quadratic fade-out factor for index i in a buffer of length len:
fade_out = np.linspace(1, 0, n) ** 2 is multiplied onto the last n
samples (generateFreeAdd.py lines 577, 579). -/
def fadeOutFactor (n len i : ℕ) : ℚ :=
  if len - n ≤ i then ((npLinspace 1 0 n).getD (i - (len - n)) 1) ^ 2 else 1

/-- Embedding of the fade block of onselect (generateFreeAdd.py lines
574-579): when fade_samples > 0, the first fade_samples entries are
scaled by the squared rising ramp and the last fade_samples entries by
the squared falling ramp (an index lying in both windows is scaled by
both factors, exactly as the two sequential in-place multiplies do). -/
def applyFade (fs : ℕ) (audio : List ℚ) : List ℚ :=
  let n := fadeLen fs audio.length
  if n = 0 then audio
  else audio.mapIdx (fun i x => x * fadeInFactor n i * fadeOutFactor n audio.length i)

/-- Embedding of Python max(abs(x)) on a numpy array: the greatest
absolute value of the entries. Python max raises on an empty array; the
base 0 of the fold is reached only in that degenerate case. -/
def maxAbs (l : List ℚ) : ℚ :=
  (l.map (fun x => |x|)).foldr max 0

/-- Normalize-and-scale step of plot_noise (generateNoise.py line 281):
self.audio = self.amplitude * noise_raw / max(abs(noise_raw)), applied
to an arbitrary realization noise_raw of the colored-noise draw. -/
def normalizeNoise (amplitude : ℚ) (raw : List ℚ) : List ℚ :=
  raw.map (fun x => amplitude * x / maxAbs raw)

/-- Action issued to the sounddevice module by the interactive preview
handlers. -/
inductive AudioAction where
  | stop
  | play (signal : List ℚ) (fs : ℕ)
deriving DecidableEq

/-- Embedding of on_select_region (generatePureTone.py lines 166-188):
guard on a sub-length-2 buffer, index mapping with np.argmax(time >= x)
for both ends, then sd.stop() followed by
sd.play(self.selectedAudio[idx_min:idx_max], fs). Returns the list of
device actions issued. -/
def on_select_region (selectedAudio : List ℚ) (fs : ℕ) (time : List ℚ)
    (xmin xmax : ℚ) : List AudioAction :=
  if selectedAudio.length ≤ 1 then []
  else
    let idxMin := argmaxGe time xmin
    let idxMax := argmaxGe time xmax
    [AudioAction.stop, AudioAction.play (pySlice selectedAudio idxMin idxMax) fs]

/-- Embedding of listen_fragment (generateNoise.py lines 298-312):
ini, end = np.searchsorted(self.time, (xmin, xmax)), extraction of
audio[ini:end+1], then a direct sd.play with no preceding stop. Returns
the new selectedAudio together with the device actions issued. -/
def listen_fragment (time audio : List ℚ) (fs : ℕ) (xmin xmax : ℚ) :
    List ℚ × List AudioAction :=
  let ini := searchsorted time xmin
  let e := searchsorted time xmax
  let sel := pySlice audio ini (e + 1)
  (sel, [AudioAction.play sel fs])

/-- Mutable attributes of FreeAdditionPureTones touched by the onselect
closure (generateFreeAdd.py lines 561-588). -/
structure FAState where
  full_audio : List ℚ
  selectedAudio : List ℚ
  selected_span : Option (ℚ × ℚ)

/-- Embedding of the onselect closure installed by addLoadButton
(generateFreeAdd.py lines 561-588): guard on a sub-length-2 full_audio,
np.searchsorted index mapping, extraction of full_audio[ini:end+1] as a
copy, the quadratic fade on that copy, storage of the faded copy in
selectedAudio and of the span, then sd.stop() followed by a non-blocking
sd.play of the faded selection. -/
def onselect (fs : ℕ) (time : List ℚ) (st : FAState) (xmin xmax : ℚ) :
    FAState × List AudioAction :=
  if st.full_audio.length ≤ 1 then (st, [])
  else
    let ini := searchsorted time xmin
    let e := searchsorted time xmax
    let selected := pySlice st.full_audio ini (e + 1)
    let faded := applyFade fs selected
    ({ st with selectedAudio := faded, selected_span := some (xmin, xmax) },
     [AudioAction.stop, AudioAction.play faded fs])

/-- Scan of an action trace checking that every play is preceded by an
earlier stop; the boolean accumulator records whether a stop has been
seen so far. -/
def stopsBeforeEveryPlay : Bool → List AudioAction → Bool
  | _, [] => true
  | _, AudioAction.stop :: r => stopsBeforeEveryPlay true r
  | seen, AudioAction.play _ _ :: r => seen && stopsBeforeEveryPlay seen r

/-- Message on the playback queue of FreeAdditionPureTones: either a
(signal, fs) request — tagged with whether the sd.play call will succeed
on the device — or the (None, None) shutdown sentinel
(generateFreeAdd.py lines 116, 447-448, 663). -/
inductive AudioMsg where
  | data (signal : List ℚ) (fs : ℕ) (deviceOk : Bool)
  | sentinel
deriving DecidableEq

/-- Observable outcome of one worker iteration: a completed playback or
a caught-and-printed device error. -/
inductive WorkerEvent where
  | played (signal : List ℚ) (fs : ℕ)
  | reportedError (signal : List ℚ) (fs : ℕ)
deriving DecidableEq

/-- Functional model of _audio_worker (generateFreeAdd.py lines 444-454):
the loop dequeues messages in FIFO order; on the sentinel it breaks
without playing anything, otherwise it attempts sd.play inside
try/except, emitting a played event on success and a reported non-fatal
error event when the device raises, then continues with the next
message. The argument is the finite sequence of messages the queue
delivers; the returned list is the trace of worker events in order. -/
def audioWorker : List AudioMsg → List WorkerEvent
  | [] => []
  | AudioMsg.sentinel :: _ => []
  | AudioMsg.data s fs ok :: rest =>
      (if ok then WorkerEvent.played s fs else WorkerEvent.reportedError s fs)
        :: audioWorker rest

/-- Queue submission of a (signal, fs, deviceOk) request as a worker
message. -/
def enqueueMsg (r : List ℚ × ℕ × Bool) : AudioMsg :=
  AudioMsg.data r.1 r.2.1 r.2.2

/-- MIDI note number computed by playPianoNote and notesHarmonics
(generateFreeAdd.py lines 392, 461): midi_note = note_value + octave*12. -/
def midiNote (noteValue octave : ℤ) : ℤ :=
  noteValue + octave * 12

/-- Fundamental frequency computed by notesHarmonics
(generateFreeAdd.py line 462): fundfreq = 440 * 2 ** ((midi_note - 69) / 12). -/
noncomputable def fundFreq (noteValue octave : ℤ) : ℝ :=
  440 * (2 : ℝ) ^ (((midiNote noteValue octave : ℝ) - 69) / 12)

/-- Harmonic multiple/amplitude ladder hard-coded by notesHarmonics
(generateFreeAdd.py lines 465-475), with the fundamental at full
amplitude followed by the five overtones. -/
def harmonicLadder : List (ℕ × ℚ) :=
  [(1, 1), (2, 83/100), (3, 67/100), (4, 1/2), (5, 33/100), (6, 17/100)]

/-- Frequency/amplitude pairs written into the six tone controls by
notesHarmonics (generateFreeAdd.py lines 456-481), before the integer
rounding performed by the Qt frequency spinboxes. -/
noncomputable def notesHarmonics (noteValue octave : ℤ) : List (ℝ × ℚ) :=
  harmonicLadder.map (fun p => (fundFreq noteValue octave * p.1, p.2))

/-- Pure tone synthesis of plotPureTone (generatePureTone.py lines
335-338): amplitude * cos(2π * frequency * t + phase * π) + offset over
the endpoint=False time axis. -/
noncomputable def plotPureTone (duration : ℚ) (fs : ℕ)
    (amplitude frequency phase offset : ℚ) : List ℝ :=
  (timeAxis duration (numSamples duration fs)).map
    (fun (t : ℚ) => (amplitude : ℝ)
      * Real.cos (2 * Real.pi * frequency * t + phase * Real.pi) + offset)

/-- Additive synthesis of plotFAPT (generateFreeAdd.py lines 498-517):
the signal starts as zeros(samples) and each (freq, amp) tone with
freq > 0 contributes amp * sin(2π * freq * t). -/
noncomputable def plotFAPT (duration : ℚ) (fs : ℕ) (tones : List (ℚ × ℚ)) :
    List ℝ :=
  (timeAxis duration (numSamples duration fs)).map
    (fun (t : ℚ) => (tones.map (fun p =>
      if 0 < p.1 then (p.2 : ℝ) * Real.sin (2 * Real.pi * p.1 * t) else 0)).sum)

/-- Embedding of scipy.signal.square(x, duty): +1 while the fractional
part of x / 2π is below duty, -1 otherwise. -/
noncomputable def scipySquare (x duty : ℝ) : ℝ :=
  if Int.fract (x / (2 * Real.pi)) < duty then 1 else -1

/-- Square wave synthesis (generateSquareWave.py lines 297-300):
amplitude * square(2π * frequency * t + phase * π, duty) + offset over
the endpoint=False time axis. -/
noncomputable def plotSquareWave (duration : ℚ) (fs : ℕ)
    (amplitude frequency phase offset duty : ℚ) : List ℝ :=
  (timeAxis duration (numSamples duration fs)).map
    (fun (t : ℚ) => (amplitude : ℝ)
      * scipySquare (2 * Real.pi * frequency * t + phase * Real.pi) duty + offset)

example : npLinspace 0 1 1 = [0] := by norm_num [npLinspace, List.range_succ]
example : npLinspace 1 0 1 = [1] := by norm_num [npLinspace, List.range_succ]
example : npLinspace 0 1 3 = [0, 1/2, 1] := by norm_num [npLinspace, List.range_succ]
example : npLinspaceEF 0 (1/2) 2 = [0, 1/4] := by norm_num [npLinspaceEF, List.range_succ]
example : searchsorted [0, 1/4] (1/8) = 1 := by norm_num [searchsorted, List.findIdx_cons]
example : searchsorted [0, 1/4] 1 = 2 := by norm_num [searchsorted, List.findIdx_cons]
example : argmaxGe [0, 1/4] 1 = 0 := by norm_num [argmaxGe, searchsorted, List.findIdx_cons]
example : argmaxGe [0, 1/4] (1/8) = 1 := by norm_num [argmaxGe, searchsorted, List.findIdx_cons]
example : numSamples (3/10) 48000 = 14400 := by norm_num [numSamples]; rfl

lemma sorted_le_getLast {l : List ℚ} (hsort : List.Sorted (· ≤ ·) l)
    (hne : l ≠ []) {x : ℚ} (hx : x ∈ l) : x ≤ l.getLast hne := by
  obtain ⟨i, hi, rfl⟩ := List.getElem_of_mem hx
  rw [List.getLast_eq_getElem]
  have hlt : l.length - 1 < l.length := by
    cases l
    · exact absurd rfl hne
    · simp
  have := hsort.rel_get_of_le
    (a := ⟨i, hi⟩) (b := ⟨l.length - 1, hlt⟩) (by simp [Fin.le_def]; omega)
  simpa [List.get_eq_getElem] using this

lemma argmaxGe_eq (a : List ℚ) (v : ℚ) :
    argmaxGe a v = if searchsorted a v = a.length then 0 else searchsorted a v :=
  rfl

lemma searchsorted_head_le (time : List ℚ) (v : ℚ) (hne : time ≠ [])
    (h : v ≤ time.head hne) : searchsorted time v = 0 := by
  cases time with
  | nil => exact absurd rfl hne
  | cons a t =>
    simp only [List.head_cons] at h
    simp [searchsorted, List.findIdx_cons, h]

lemma searchsorted_gt_getLast (time : List ℚ) (v : ℚ) (hne : time ≠ [])
    (hsort : List.Sorted (· ≤ ·) time) (h : time.getLast hne < v) :
    searchsorted time v = time.length := by
  apply List.findIdx_eq_length_of_false
  intro x hx
  simp only [decide_eq_false_iff_not, not_le]
  calc x ≤ time.getLast hne := sorted_le_getLast hsort hne hx
  _ < v := h

lemma foldr_max_map_mul (c : ℚ) (hc : 0 ≤ c) (l : List ℚ) :
    (l.map (fun x => c * x)).foldr max 0 = c * l.foldr max 0 := by
  induction l with
  | nil => simp
  | cons a t ih => simp [ih, mul_max_of_nonneg _ _ hc]

/-- C5: for every generated colored-noise signal with positive configured
amplitude (whatever the color exponent that produced the raw draw), the
maximum absolute value of the normalized output equals the configured
amplitude exactly, because plot_noise divides the raw draw by its own
maximum absolute value before scaling. -/
theorem noise_peak_equals_amplitude (amplitude : ℚ) (raw : List ℚ)
    (hamp : 0 < amplitude) (hM : 0 < maxAbs raw) :
    maxAbs (normalizeNoise amplitude raw) = amplitude := by
  have hMne : maxAbs raw ≠ 0 := ne_of_gt hM
  have e1 : (normalizeNoise amplitude raw).map (fun x => |x|)
      = (raw.map (fun x => |x|)).map (fun y => (amplitude / maxAbs raw) * y) := by
    unfold normalizeNoise
    rw [List.map_map, List.map_map]
    refine List.map_congr_left ?_
    intro x _
    simp only [Function.comp]
    rw [abs_div, abs_mul, abs_of_pos hamp, abs_of_pos hM]
    ring
  show ((normalizeNoise amplitude raw).map (fun x => |x|)).foldr max 0 = amplitude
  rw [e1, foldr_max_map_mul _ (le_of_lt (div_pos hamp hM))]
  exact div_mul_cancel₀ amplitude hMne

/-- Witness for the C5 theorem at a concrete draw. -/
theorem noise_peak_equals_amplitude_witness :
    0 < (2:ℚ) ∧ 0 < maxAbs [1, -3] ∧ maxAbs (normalizeNoise 2 [1, -3]) = 2 :=
  ⟨by norm_num, by norm_num [maxAbs],
    noise_peak_equals_amplitude 2 [1, -3] (by norm_num) (by norm_num [maxAbs])⟩

/-- C7: after the playback worker dequeues the None sentinel its loop
terminates: every request queued ahead of the sentinel is still
processed (the in-flight and already-queued work is finished), the
sentinel itself is never played, and no message submitted after the
sentinel is processed. -/
theorem worker_sentinel_shutdown (reqs : List (List ℚ × ℕ × Bool))
    (more : List AudioMsg) :
    audioWorker (reqs.map enqueueMsg ++ AudioMsg.sentinel :: more)
      = audioWorker (reqs.map enqueueMsg)
    ∧ (audioWorker (reqs.map enqueueMsg)).length = reqs.length := by
  constructor
  · induction reqs with
    | nil => simp [audioWorker]
    | cons r t ih => simp [audioWorker, enqueueMsg, ih]
  · induction reqs with
    | nil => simp [audioWorker]
    | cons r t ih => simp [audioWorker, enqueueMsg, ih]

/-- C8: a device error on a non-sentinel request is caught and converted
to a reported event, and the worker continues exactly as it would on the
remaining messages — a failed playback never terminates the worker. -/
theorem worker_survives_device_error (s : List ℚ) (fs : ℕ)
    (rest : List AudioMsg) :
    audioWorker (AudioMsg.data s fs false :: rest)
      = WorkerEvent.reportedError s fs :: audioWorker rest := by
  simp [audioWorker]

/-- C10: the onselect handler of the free-addition generator fades only
the extracted copy of the selection; the source full_audio buffer is
unchanged by selection extraction, fading and playback submission. -/
theorem onselect_preserves_full_audio (fs : ℕ) (time : List ℚ) (st : FAState)
    (xmin xmax : ℚ) :
    ((onselect fs time st xmin xmax).1).full_audio = st.full_audio := by
  unfold onselect
  split
  · rfl
  · rfl

/-- C3 counterexample: the noise generator's preview path
listen_fragment issues its play with no preceding stop, so the claim
that every direct-preview playback path stops current audio before
playing is false at this concrete selection. -/
theorem preview_stop_counterexample :
    (listen_fragment [0, 1] [1, 2] 44100 0 1).2
      = [AudioAction.play [1, 2] 44100]
    ∧ stopsBeforeEveryPlay false ((listen_fragment [0, 1] [1, 2] 44100 0 1).2)
        = false := by
  constructor
  · norm_num [listen_fragment, searchsorted, pySlice, List.findIdx_cons]
  · norm_num [listen_fragment, searchsorted, pySlice, List.findIdx_cons,
      stopsBeforeEveryPlay]

/-- C3 amended: the pure-tone and free-addition preview handlers stop
current playback before every play they issue, but the noise preview
handler issues exactly one play and no stop. -/
theorem preview_paths_stop_discipline (fs : ℕ)
    (time selectedAudio time2 audio2 : List ℚ) (st : FAState) (xmin xmax : ℚ) :
    stopsBeforeEveryPlay false ((onselect fs time st xmin xmax).2) = true
    ∧ stopsBeforeEveryPlay false (on_select_region selectedAudio fs time xmin xmax)
        = true
    ∧ (listen_fragment time2 audio2 fs xmin xmax).2
        = [AudioAction.play (listen_fragment time2 audio2 fs xmin xmax).1 fs] := by
  refine ⟨?_, ?_, rfl⟩
  · unfold onselect
    split
    · rfl
    · simp [stopsBeforeEveryPlay]
  · unfold on_select_region
    split
    · rfl
    · simp [stopsBeforeEveryPlay]

/-- C2 counterexample: on the two-sample axis [0, 1] a selection (2, 3)
lying entirely above the axis range is not clamped to the last index 1:
the searchsorted-based mapper returns 2 (the axis length) and the
argmax-based mapper returns 0. -/
theorem out_of_range_clamp_counterexample :
    searchsorted [0, 1] 2 = 2 ∧ argmaxGe [(0:ℚ), 1] 2 = 0
    ∧ [(0:ℚ), 1].length - 1 = 1 ∧ (2:ℕ) ≠ 1 ∧ (0:ℕ) ≠ 1 := by
  refine ⟨?_, ?_, by norm_num, by norm_num, by norm_num⟩
  · norm_num [searchsorted, List.findIdx_cons]
  · norm_num [argmaxGe, List.findIdx_cons]

/-- C2 amended: a selection entirely below the axis range clamps to
index 0 in both span mappers, while a selection entirely above the range
yields the axis length (one past the last index, so an empty slice) in
the searchsorted-based mappers and index 0 in the argmax-based mapper —
not the last index. -/
theorem out_of_range_selection_clamp (time : List ℚ) (xmin xmax : ℚ)
    (hne : time ≠ []) (hsort : List.Sorted (· ≤ ·) time) (hx : xmin ≤ xmax) :
    (xmax < time.head hne →
      searchsorted time xmin = 0 ∧ searchsorted time xmax = 0
      ∧ argmaxGe time xmin = 0 ∧ argmaxGe time xmax = 0)
    ∧ (time.getLast hne < xmin →
      searchsorted time xmin = time.length
      ∧ searchsorted time xmax = time.length
      ∧ argmaxGe time xmin = 0 ∧ argmaxGe time xmax = 0) := by
  have hlen : 0 < time.length := List.length_pos.mpr hne
  constructor
  · intro hbelow
    have h1 : searchsorted time xmin = 0 :=
      searchsorted_head_le time xmin hne (le_of_lt (lt_of_le_of_lt hx hbelow))
    have h2 : searchsorted time xmax = 0 :=
      searchsorted_head_le time xmax hne (le_of_lt hbelow)
    refine ⟨h1, h2, ?_, ?_⟩
    · rw [argmaxGe_eq, h1, if_neg (by omega)]
    · rw [argmaxGe_eq, h2, if_neg (by omega)]
  · intro habove
    have h1 : searchsorted time xmin = time.length :=
      searchsorted_gt_getLast time xmin hne hsort habove
    have h2 : searchsorted time xmax = time.length :=
      searchsorted_gt_getLast time xmax hne hsort (lt_of_lt_of_le habove hx)
    refine ⟨h1, h2, ?_, ?_⟩
    · rw [argmaxGe_eq, h1, if_pos rfl]
    · rw [argmaxGe_eq, h2, if_pos rfl]

/-- Witness for the C2 amended theorem on the axis [0, 1] with the
below-range selection (-2, -1) and the above-range selection (2, 3). -/
theorem out_of_range_selection_clamp_witness :
    ((-1:ℚ) < [(0:ℚ), 1].head (by simp) →
      searchsorted [(0:ℚ), 1] (-2) = 0 ∧ searchsorted [(0:ℚ), 1] (-1) = 0
      ∧ argmaxGe [(0:ℚ), 1] (-2) = 0 ∧ argmaxGe [(0:ℚ), 1] (-1) = 0)
    ∧ ([(0:ℚ), 1].getLast (by simp) < (-2:ℚ) →
      searchsorted [(0:ℚ), 1] (-2) = [(0:ℚ), 1].length
      ∧ searchsorted [(0:ℚ), 1] (-1) = [(0:ℚ), 1].length
      ∧ argmaxGe [(0:ℚ), 1] (-2) = 0 ∧ argmaxGe [(0:ℚ), 1] (-1) = 0) :=
  out_of_range_selection_clamp [(0:ℚ), 1] (-2) (-1) (by simp)
    (by norm_num [List.sorted_cons]) (by norm_num)

/-- C4: on a monotonically increasing axis, for a selection with
xmin ≤ xmax whose endpoints lie within the axis range, both span mappers
return as start the smallest index whose time is at least xmin and as
end the smallest index whose time is at least xmax (first-not-less
search, ties to the lowest index), and start ≤ end. -/
theorem span_mapping_first_ge (time : List ℚ) (xmin xmax : ℚ)
    (hne : time ≠ []) (hsort : List.Sorted (· < ·) time)
    (hlo : time.head hne ≤ xmin) (hx : xmin ≤ xmax)
    (hhi : xmax ≤ time.getLast hne) :
    searchsorted time xmin ≤ searchsorted time xmax
    ∧ argmaxGe time xmin = searchsorted time xmin
    ∧ argmaxGe time xmax = searchsorted time xmax
    ∧ (∃ h1 : searchsorted time xmin < time.length,
        xmin ≤ time.get ⟨searchsorted time xmin, h1⟩
        ∧ ∀ k (hk : k < searchsorted time xmin),
            time.get ⟨k, lt_trans hk h1⟩ < xmin)
    ∧ (∃ h2 : searchsorted time xmax < time.length,
        xmax ≤ time.get ⟨searchsorted time xmax, h2⟩
        ∧ ∀ k (hk : k < searchsorted time xmax),
            time.get ⟨k, lt_trans hk h2⟩ < xmax) := by
  have hex2 : ∃ x ∈ time, decide (xmax ≤ x) = true :=
    ⟨time.getLast hne, List.getLast_mem hne, by simpa using hhi⟩
  have hex1 : ∃ x ∈ time, decide (xmin ≤ x) = true :=
    ⟨time.getLast hne, List.getLast_mem hne, by simpa using le_trans hx hhi⟩
  have h1 : searchsorted time xmin < time.length :=
    List.findIdx_lt_length_of_exists hex1
  have h2 : searchsorted time xmax < time.length :=
    List.findIdx_lt_length_of_exists hex2
  refine ⟨?_, ?_, ?_, ⟨h1, ?_, ?_⟩, ⟨h2, ?_, ?_⟩⟩
  · exact List.findIdx_le_findIdx (fun x _ hpx => by
      simp only [decide_eq_true_eq] at hpx ⊢
      exact le_trans hx hpx)
  · rw [argmaxGe_eq, if_neg (Nat.ne_of_lt h1)]
  · rw [argmaxGe_eq, if_neg (Nat.ne_of_lt h2)]
  · have := @List.findIdx_getElem ℚ (fun t => decide (xmin ≤ t)) time h1
    simpa [List.get_eq_getElem, searchsorted] using this
  · intro k hk
    have := @List.not_of_lt_findIdx ℚ (fun t => decide (xmin ≤ t)) time k hk
    simpa [List.get_eq_getElem, not_le] using this
  · have := @List.findIdx_getElem ℚ (fun t => decide (xmax ≤ t)) time h2
    simpa [List.get_eq_getElem, searchsorted] using this
  · intro k hk
    have := @List.not_of_lt_findIdx ℚ (fun t => decide (xmax ≤ t)) time k hk
    simpa [List.get_eq_getElem, not_le] using this

/-- Witness for the C4 theorem on the axis [0, 1, 2] with the in-range
selection (1, 2). -/
theorem span_mapping_first_ge_witness :
    (1:ℚ) ≤ 2
    ∧ searchsorted [(0:ℚ), 1, 2] 1 ≤ searchsorted [(0:ℚ), 1, 2] 2 := by
  refine ⟨by norm_num, ?_⟩
  exact (span_mapping_first_ge [(0:ℚ), 1, 2] 1 2 (by simp)
    (by norm_num [List.sorted_cons]) (by norm_num) (by norm_num)
    (by norm_num [List.getLast])).1

/-- C9: for duration and sample rate with duration*fs ≥ 1, each signal
family — pure tone, additive tones, square wave and normalized colored
noise (whose raw draw has the requested sample count) — produces exactly
floor(duration*fs) samples, and the derived time axis has the same
length. -/
theorem sample_count_determinism (duration : ℚ) (fs : ℕ)
    (amplitude frequency phase offset duty : ℚ)
    (tones : List (ℚ × ℚ)) (raw : List ℚ)
    (hdf : 1 ≤ duration * fs) (hraw : raw.length = numSamples duration fs) :
    (plotPureTone duration fs amplitude frequency phase offset).length
        = (⌊duration * fs⌋).toNat
    ∧ (plotFAPT duration fs tones).length = (⌊duration * fs⌋).toNat
    ∧ (plotSquareWave duration fs amplitude frequency phase offset duty).length
        = (⌊duration * fs⌋).toNat
    ∧ (normalizeNoise amplitude raw).length = (⌊duration * fs⌋).toNat
    ∧ (timeAxis duration (numSamples duration fs)).length
        = (⌊duration * fs⌋).toNat := by
  have hlen : (timeAxis duration (numSamples duration fs)).length
      = (⌊duration * fs⌋).toNat := by
    simp only [timeAxis, npLinspaceEF, List.length_map, List.length_range,
      numSamples]
  refine ⟨?_, ?_, ?_, ?_, hlen⟩
  · simpa only [plotPureTone, List.length_map] using hlen
  · simpa only [plotFAPT, List.length_map] using hlen
  · simpa only [plotSquareWave, List.length_map] using hlen
  · simp only [normalizeNoise, List.length_map, hraw, numSamples]

/-- Witness for the C9 theorem at duration 1/2 s and fs = 4 Hz with a
two-sample raw noise draw. -/
theorem sample_count_determinism_witness :
    (1:ℚ) ≤ (1/2 : ℚ) * ((4:ℕ) : ℚ)
    ∧ (plotFAPT (1/2) 4 []).length = (⌊(1/2 : ℚ) * ((4:ℕ) : ℚ)⌋).toNat := by
  have hraw : ([(1:ℚ), 2]).length = numSamples (1/2) 4 := by
    norm_num [numSamples]
    rfl
  refine ⟨by norm_num, ?_⟩
  exact (sample_count_determinism (1/2) 4 1 1 0 0 (1/2) [] [1, 2]
    (by norm_num) hraw).2.1

/-- C1 counterexample: with semitone offset 0 and octave 4 the mapper
computes midi note 48 and fundamental 440 * 2^(-21/12) Hz, which is
strictly below 440 Hz, so the claimed 440 Hz fundamental (and with it
the claimed harmonic ladder) is false at this input. -/
theorem harmonic_mapper_counterexample : fundFreq 0 4 ≠ 440 := by
  have hexp : ((midiNote 0 4 : ℝ) - 69) / 12 = (-21 : ℝ) / 12 := by
    norm_num [midiNote]
  have h1 : (2 : ℝ) ^ ((-21 : ℝ) / 12) < 1 :=
    Real.rpow_lt_one_of_one_lt_of_neg (by norm_num) (by norm_num)
  have hlt : fundFreq 0 4 < 440 := by
    unfold fundFreq
    rw [hexp]
    nlinarith [h1]
  exact ne_of_lt hlt

/-- C1 amended: the input that actually denotes A4 (midi note 69) is
semitone offset 21 with the default octave 4 (or equivalently offset 9
with octave 5); there the mapper yields the fundamental 440 Hz at
amplitude 1.0, the 2nd harmonic 880 Hz at 0.83, up to the 6th harmonic
2640 Hz at 0.17. -/
theorem harmonic_ladder_A440 :
    notesHarmonics 21 4
      = [(440, 1), (880, 83/100), (1320, 67/100), (1760, 1/2),
         (2200, 33/100), (2640, 17/100)] := by
  have hexp : ((midiNote 21 4 : ℝ) - 69) / 12 = 0 := by
    norm_num [midiNote]
  have hf : fundFreq 21 4 = 440 := by
    unfold fundFreq
    rw [hexp, Real.rpow_zero, mul_one]
  unfold notesHarmonics harmonicLadder
  rw [hf]
  norm_num

lemma npLinspace_getD (a b : ℚ) (n i : ℕ) (h2 : 2 ≤ n) (hi : i < n) :
    (npLinspace a b n).getD i 1 = a + (b - a) * i / ((n : ℚ) - 1) := by
  unfold npLinspace
  rw [if_neg (by omega)]
  rw [List.getD_eq_getElem _ _ (by simpa using hi)]
  simp

/-- C6 counterexample: a four-sample selection at fs = 48000 gets
fade_len = min(960, 4 // 4) = 1; np.linspace(1, 0, 1) is the singleton
[1], so the last sample is multiplied by 1 and keeps its original value
1 instead of becoming 0 as the claim requires. -/
theorem fade_short_selection_counterexample :
    applyFade 48000 [1, 1, 1, 1] = [0, 1, 1, 1]
    ∧ [(0:ℚ), 1, 1, 1].getLast? = some 1 ∧ (1 : ℚ) ≠ 0 := by
  refine ⟨?_, rfl, by norm_num⟩
  norm_num [applyFade, fadeLen, fadeInFactor, fadeOutFactor, npLinspace,
    List.mapIdx, List.mapIdx.go, List.range_succ]

/-- C6 amended: the fade applier uses
fade_len = min(floor(0.02*fs), floor(L/4)), shrinking on short arrays,
and multiplies the first fade_len samples by the squared rising ramp and
the last fade_len samples by the squared falling ramp; whenever the
shrunk fade_len is at least 2, the first and last samples of the faded
array equal 0 and the sample at index fade_len is the original sample
unmodified (with fade_len = 1 the ramps degenerate to the singletons [0]
and [1], so the first sample is zeroed but the last keeps its value, and
with fade_len = 0 no fade is applied at all). -/
theorem fade_boundary_behavior (fs : ℕ) (audio : List ℚ)
    (h2 : 2 ≤ fadeLen fs audio.length) :
    (applyFade fs audio).length = audio.length
    ∧ (applyFade fs audio).head? = some 0
    ∧ (applyFade fs audio).getLast? = some 0
    ∧ (applyFade fs audio).getD (fadeLen fs audio.length) 0
        = audio.getD (fadeLen fs audio.length) 0 := by
  have hmin : fadeLen fs audio.length ≤ audio.length / 4 := min_le_right _ _
  have hL4 : fadeLen fs audio.length * 4 ≤ audio.length :=
    (Nat.le_div_iff_mul_le (by norm_num)).mp hmin
  have hn0 : fadeLen fs audio.length ≠ 0 := by omega
  have happ : applyFade fs audio
      = audio.mapIdx (fun i x =>
          x * fadeInFactor (fadeLen fs audio.length) i
            * fadeOutFactor (fadeLen fs audio.length) audio.length i) := by
    simp only [applyFade]
    rw [if_neg hn0]
  have hlen : (applyFade fs audio).length = audio.length := by
    rw [happ, List.length_mapIdx]
  have hLpos : 0 < audio.length := by omega
  have hcast : (1 : ℚ) ≤ ((fadeLen fs audio.length : ℚ) - 1) := by
    have : (2 : ℚ) ≤ (fadeLen fs audio.length : ℚ) := by exact_mod_cast h2
    linarith
  have hne1 : ((fadeLen fs audio.length : ℚ) - 1) ≠ 0 := by linarith
  have hgetD : ∀ i, i < audio.length →
      (applyFade fs audio).getD i 0
        = audio.getD i 0 * fadeInFactor (fadeLen fs audio.length) i
            * fadeOutFactor (fadeLen fs audio.length) audio.length i := by
    intro i hi
    rw [List.getD_eq_getElem _ _ (by omega), List.getD_eq_getElem _ _ hi]
    simp only [happ, List.getElem_mapIdx]
  refine ⟨hlen, ?_, ?_, ?_⟩
  · rw [List.head?_eq_getElem?, List.getElem?_eq_getElem (by omega),
      ← List.getD_eq_getElem (applyFade fs audio) 0 (by omega : 0 < (applyFade fs audio).length)]
    rw [hgetD 0 hLpos, fadeInFactor, if_pos (by omega),
      npLinspace_getD 0 1 _ 0 h2 (by omega)]
    norm_num
  · rw [List.getLast?_eq_getElem?, hlen,
      List.getElem?_eq_getElem (by omega),
      ← List.getD_eq_getElem (applyFade fs audio) 0
        (by omega : audio.length - 1 < (applyFade fs audio).length)]
    rw [hgetD (audio.length - 1) (by omega), fadeOutFactor, if_pos (by omega),
      fadeInFactor, if_neg (by omega)]
    have hidx : audio.length - 1 - (audio.length - fadeLen fs audio.length)
        = fadeLen fs audio.length - 1 := by omega
    rw [hidx, npLinspace_getD 1 0 _ _ h2 (by omega)]
    have hc2 : ((fadeLen fs audio.length - 1 : ℕ) : ℚ)
        = (fadeLen fs audio.length : ℚ) - 1 := by
      have h1n : 1 ≤ fadeLen fs audio.length := by omega
      push_cast [h1n]
      ring
    rw [hc2]
    field_simp
  · have hnL : fadeLen fs audio.length < audio.length := by omega
    rw [hgetD (fadeLen fs audio.length) hnL, fadeInFactor, if_neg (by omega),
      fadeOutFactor, if_neg (by omega)]
    ring

/-- Witness for the C6 amended theorem: fs = 100 on an eight-sample
buffer gives fade_len = min(2, 2) = 2. -/
theorem fade_boundary_behavior_witness :
    2 ≤ fadeLen 100 ([(5:ℚ), 5, 5, 5, 5, 5, 5, 5].length)
    ∧ (applyFade 100 [(5:ℚ), 5, 5, 5, 5, 5, 5, 5]).head? = some 0 := by
  refine ⟨by norm_num [fadeLen], ?_⟩
  exact (fade_boundary_behavior 100 [(5:ℚ), 5, 5, 5, 5, 5, 5, 5]
    (by norm_num [fadeLen])).2.1

end SignalViz
